import Mathlib

/-!
Verification of the retrieval-merge-and-citation pipeline of the TiendaInglesa
assistant. Text is modelled as `List Char` (ASCII-faithful; the Python source
operates on `str`). Numeric scores are modelled as exact rationals `ℚ`
(the backend reports numeric scores; comparisons in the source are plain
`>=` / `>` against integer constants, which the rational model reproduces
exactly). Fallible operations are modelled with `Option`; total Lean
functions model the absence of uncaught exceptions on the corresponding
Python paths.
-/

set_option maxHeartbeats 4000000
set_option maxRecDepth 10000

attribute [local semireducible] Rat.add Rat.mul Rat.inv Rat.sub Rat.ofScientific

namespace TiendaInglesa

/-! ### Result merger (src/chains/assistant_chain_lcel.py, `merge_rag_fn`) -/

/-- Embeds a GroundX search result as consumed by `merge_rag_fn`:
`res.score`, `doc.suggested_text` and the (possibly absent) `file_name`
attribute read via `getattr(doc, "file_name", ...)`. -/
structure SearchResult where
  score : ℚ
  suggested_text : List Char
  file_name : Option (List Char)
deriving DecidableEq

/-- Entries of `combined_list` in `merge_rag_fn`: tuples `(lang, score, res)`. -/
abbrev MergeEntry : Type := List Char × ℚ × SearchResult

/-- The language tag `"ES"` used for the Spanish (source-language) branch. -/
def esTag : List Char := "ES".toList

/-- The language tag `"EN"` used for the English (translated) branch. -/
def enTag : List Char := "EN".toList

/-- Embeds the per-branch filtering loop of `merge_rag_fn`
(`for res in results: if score >= 150: combined_list.append((lang, score, res))`). -/
def keptEntries (lang : List Char) : List SearchResult → List MergeEntry
  | [] => []
  | r :: rs =>
      if 150 ≤ r.score then (lang, r.score, r) :: keptEntries lang rs
      else keptEntries lang rs

/-- Embeds the per-branch score accumulation of `merge_rag_fn`
(`if score >= 150: branch_score += score`). -/
def keptScore : List SearchResult → ℚ
  | [] => 0
  | r :: rs => if 150 ≤ r.score then r.score + keptScore rs else keptScore rs

/-- One insertion step of a stable descending sort by the score component.
`combined_list.sort(key=lambda x: x[1], reverse=True)` in the source is
the stable sort of Python; an element is placed after every element with a
strictly larger score and before the first element with a smaller-or-equal
score, which is exactly the stable-descending placement. -/
def insertDesc (x : MergeEntry) : List MergeEntry → List MergeEntry
  | [] => [x]
  | y :: ys => if x.2.1 < y.2.1 then y :: insertDesc x ys else x :: y :: ys

/-- Stable descending sort by score, embedding
`combined_list.sort(key=lambda x: x[1], reverse=True)`. -/
def sortDesc : List MergeEntry → List MergeEntry
  | [] => []
  | x :: xs => insertDesc x (sortDesc xs)

/-- The sorted combined list built by `merge_rag_fn` from the kept entries of
both branches (Spanish entries are appended first, then English ones). -/
def mergeCombined (es en : List SearchResult) : List MergeEntry :=
  sortDesc (keptEntries esTag es ++ keptEntries enTag en)

/-- Embeds the snippet construction of `merge_rag_fn`:
`"----------\n" + f"The following text excerpt is from a document named
{file_name}:\n\n" + f"{doc.suggested_text}\n"` where `file_name` is
`getattr(doc, "file_name", f"Documento {lang}")`. -/
def snippetFor (e : MergeEntry) : List Char :=
  let fname := e.2.2.file_name.getD ("Documento ".toList ++ e.1)
  "----------\n".toList
    ++ "The following text excerpt is from a document named ".toList
    ++ fname ++ ":\n\n".toList ++ e.2.2.suggested_text ++ "\n".toList

/-- The `chunks` list of `merge_rag_fn`: one rendered block per surviving
entry of the sorted combined list. -/
def mergeChunks (es en : List SearchResult) : List (List Char) :=
  (mergeCombined es en).map snippetFor

/-- Embeds Python `"\n".join(chunks)`. -/
def joinNewline : List (List Char) → List Char
  | [] => []
  | [c] => c
  | c :: cs => c ++ '\n' :: joinNewline cs

/-- Embeds Python `str.strip()` (whitespace removed from both ends). -/
def trimChars (l : List Char) : List Char :=
  ((l.dropWhile Char.isWhitespace).reverse.dropWhile Char.isWhitespace).reverse

/-- The fallback sentinel emitted by `merge_rag_fn` when no result passes the
threshold (the source concatenates two adjacent string literals). -/
def fallbackContext : List Char :=
  "No documents retrieved for this question. Respond using only your general knowledge.".toList

/-- Embeds `merge_rag_fn`: returns the final context string and the total
score. The source stores the total in the shared field
`rag_service.total_score`; the shallow embedding returns it instead. -/
def mergeRag (es en : List SearchResult) : List Char × ℚ :=
  let chunks := mergeChunks es en
  let ctx := if chunks.isEmpty then fallbackContext else trimChars (joinNewline chunks)
  (ctx, keptScore es + keptScore en)

/-- Score-equality filter used to state the stable-tie-break property. -/
def scoreFilter (s : ℚ) (l : List MergeEntry) : List MergeEntry :=
  l.filter (fun e => decide (e.2.1 = s))

/-! ### Relevance classifier (src/utilities/rag_service.py, `should_call_groundx`) -/

/-- ASCII fragment of Python `str.lower()` applied characterwise:
`A`–`Z` are shifted to `a`–`z`, every other character is unchanged. -/
def pyLower (c : Char) : Char :=
  if 65 ≤ c.toNat ∧ c.toNat ≤ 90 then Char.ofNat (c.toNat + 32) else c

/-- ASCII uppercase test (code point in `A`–`Z`). -/
def upperAscii (c : Char) : Bool := decide (65 ≤ c.toNat ∧ c.toNat ≤ 90)

/-- ASCII lowercase test (code point in `a`–`z`). -/
def lowerAscii (c : Char) : Bool := decide (97 ≤ c.toNat ∧ c.toNat ≤ 122)

/-- Embeds `query.lower()` in `should_call_groundx`. -/
def lowerQuery (q : List Char) : List Char := q.map pyLower

/-- Embeds the Python substring test `kw in lower_query`
(first argument is the haystack, second the needle). -/
def containsSub : List Char → List Char → Bool
  | [], kw => kw.isEmpty
  | h :: t, kw => kw.isPrefixOf (h :: t) || containsSub t kw

/-- Embeds the keyword fast path of `should_call_groundx`:
`for kw in self.keywords: if kw in lower_query: return True`.
The keyword is compared verbatim; only the query is lower-cased. -/
def keywordHit (keywords : List (List Char)) (query : List Char) : Bool :=
  keywords.any (fun kw => containsSub (lowerQuery query) kw)

/-- Numeric value of a run of decimal digit characters. -/
def digitsVal (ds : List Char) : Nat :=
  ds.foldl (fun a c => 10 * a + (c.toNat - 48)) 0

/-- Unsigned part of the model of Python `float(str)`: decimal digits with an
optional fraction (`"12"`, `"12.5"`, `"12."`, `".5"`). Exponents and the
special values `inf`/`nan` are outside this model; the parse-failure claim
only depends on the `none` branch. -/
def parseUnsignedQ (l : List Char) : Option ℚ :=
  let ip := l.takeWhile Char.isDigit
  match l.dropWhile Char.isDigit with
  | [] => if ip.isEmpty then none else some (digitsVal ip)
  | '.' :: r =>
      let fp := r.takeWhile Char.isDigit
      if (r.dropWhile Char.isDigit).isEmpty && !(ip.isEmpty && fp.isEmpty) then
        some ((digitsVal ip : ℚ) + (digitsVal fp : ℚ) / (10 : ℚ) ^ fp.length)
      else none
  | _ => none

/-- Model of Python `float(str)` on finite decimal literals with an optional
sign; `none` models a raised `ValueError`. -/
def parseFloatQ (l : List Char) : Option ℚ :=
  match l with
  | '+' :: r => parseUnsignedQ r
  | '-' :: r => (parseUnsignedQ r).map (fun x => -x)
  | _ => parseUnsignedQ l

/-- Embeds the classification-reply handling of `should_call_groundx`:
`result_text = response.content.strip()`; `try: probability =
float(result_text) except ValueError: probability = 50.0`. -/
def classifierProbability (reply : List Char) : ℚ :=
  match parseFloatQ (trimChars reply) with
  | some p => p
  | none => 50

/-- Embeds `should_call_groundx` as a function of the configured keywords,
the query, and the LLM classification reply (the LLM call itself is an
external collaborator): keyword fast path first, then
`return probability >= threshold` with `threshold = 50`. -/
def shouldCallGroundx (keywords : List (List Char)) (query reply : List Char) : Bool :=
  if keywordHit keywords query then true
  else decide (50 ≤ classifierProbability reply)

/-! ### Citation resolver (src/utilities/reference_maker.py, `ReferenceMaker`) -/

/-- Configuration of a `ReferenceMaker`: the company name (`self.empresa`),
the corpus filename snapshot (`self.docs_list`) and the fuzzy-match
threshold (`self.threshold`; 70 in the deployment wired up by
`RAGService.__init__`). -/
structure RefMaker where
  empresa : List Char
  docs_list : List (List Char)
  threshold : ℚ
deriving DecidableEq

/-- One row-update step of the longest-common-subsequence dynamic program:
`ys` are the remaining columns, `up :: rest` the old row from the current
column on, `diag` the old row at the previous column, `left` the new row at
the previous column. -/
def lcsRowStep (x : Char) : List Char → List Nat → Nat → Nat → List Nat
  | y :: ys, up :: rest, diag, left =>
      let cur := if x = y then diag + 1 else max left up
      cur :: lcsRowStep x ys rest up cur
  | _, _, _, _ => []

/-- Full row update for one character of the first string. -/
def lcsRow (x : Char) (s2 : List Char) (oldRow : List Nat) : List Nat :=
  match oldRow with
  | [] => []
  | d0 :: rest => 0 :: lcsRowStep x s2 rest d0 0

/-- Length of a longest common subsequence, by dynamic programming. -/
def lcsCompute (s1 s2 : List Char) : Nat :=
  (s1.foldl (fun row x => lcsRow x s2 row) (List.replicate (s2.length + 1) 0)).getLast?.getD 0

/-- Embeds `rapidfuzz.fuzz.ratio`: the normalised InDel similarity
`100 * (len1 + len2 - dist) / (len1 + len2)` with
`dist = len1 + len2 - 2 * lcs`, as an exact rational in `[0, 100]`
(two empty strings score 100, as in rapidfuzz). -/
def ratioScore (a b : List Char) : ℚ :=
  if a.length + b.length = 0 then 100
  else 200 * (lcsCompute a b : ℚ) / ((a.length : ℚ) + (b.length : ℚ))

/-- Scanning loop of `rapidfuzz.process.extractOne`: keeps the first
candidate achieving the maximal score (later candidates replace the current
best only on a strictly larger score). -/
def extractGo (q best : List Char) (bestScore : ℚ) : List (List Char) → List Char × ℚ
  | [] => (best, bestScore)
  | d :: ds =>
      let s := ratioScore q d
      if bestScore < s then extractGo q d s ds else extractGo q best bestScore ds

/-- Embeds `process.extractOne(normalized_ref, self.docs_list, scorer=fuzz.ratio)`.
On an empty candidate list the Python call yields `None` (and the tuple unpacking
at the caller would raise); the model returns `none` there, and the
theorems that depend on resolution assume a nonempty corpus. -/
def extractOneBest (q : List Char) : List (List Char) → Option (List Char × ℚ)
  | [] => none
  | d :: ds => some (extractGo q d (ratioScore q d) ds)

/-- Fuel-indexed embedding of Python `str.replace(pat, rep)` (left-to-right,
non-overlapping). The wrapper `replaceList` supplies fuel equal to the text
length, which each step strictly decreases while consuming at least one
character, so the fuel never runs out on the calls made by the wrapper. -/
def replaceGo (pat rep : List Char) : Nat → List Char → List Char
  | _, [] => []
  | 0, l => l
  | fuel + 1, c :: cs =>
      if !pat.isEmpty && pat.isPrefixOf (c :: cs) then
        rep ++ replaceGo pat rep fuel ((c :: cs).drop pat.length)
      else c :: replaceGo pat rep fuel cs

/-- Embeds Python `text.replace(pat, rep)`. -/
def replaceList (pat rep l : List Char) : List Char :=
  replaceGo pat rep l.length l

/-- Embeds `ReferenceMaker.normalize_reference_name`:
`reference_name.replace("+", " ").replace("%20", " ").replace("%28", "(").replace("%29", ")")`. -/
def normalize_reference_name (l : List Char) : List Char :=
  replaceList ("%29".toList) (")".toList)
    (replaceList ("%28".toList) ("(".toList)
      (replaceList ("%20".toList) (" ".toList)
        (replaceList ("+".toList) (" ".toList) l)))

/-- Embeds `ReferenceMaker.find_closest_filename`: fuzzy-match the
normalised mention against the corpus and accept the best candidate only
when its score reaches the threshold; `none` models the `return None` of
the below-threshold branch. -/
def find_closest_filename (rm : RefMaker) (ref : List Char) : Option (List Char) :=
  match extractOneBest (normalize_reference_name ref) rm.docs_list with
  | none => none
  | some (m, s) => if rm.threshold ≤ s then some m else none

/-- States of the left-to-right scanner for the regex `\*\*([^*]+)\*\*`:
outside any candidate; after one `*`; after the opening `**` with the
(possibly empty) captured text so far; after a closing `*` following a
nonempty capture. -/
inductive ScanSt where
  | s0 : ScanSt
  | s1 : ScanSt
  | s2 (acc : List Char) : ScanSt
  | s3 (acc : List Char) : ScanSt
deriving DecidableEq

/-- Embeds `doc_regex.findall(text)` for `doc_regex = \*\*([^*]+)\*\*` as a
character-by-character scan: a capture is produced exactly where the Python
left-to-right, leftmost, greedy matching produces a match, and scanning
resumes after the closing `**`. -/
def scanStep : ScanSt → List Char → List (List Char)
  | _, [] => []
  | .s0, c :: cs => if c = '*' then scanStep .s1 cs else scanStep .s0 cs
  | .s1, c :: cs => if c = '*' then scanStep (.s2 []) cs else scanStep .s0 cs
  | .s2 acc, c :: cs =>
      if c = '*' then
        if acc.isEmpty then scanStep (.s2 []) cs else scanStep (.s3 acc) cs
      else scanStep (.s2 (acc ++ [c])) cs
  | .s3 acc, c :: cs =>
      if c = '*' then acc :: scanStep .s0 cs else scanStep .s0 cs

/-- The mention list `matches = doc_regex.findall(text)`. -/
def scanMentions (text : List Char) : List (List Char) :=
  scanStep .s0 text

/-- Key-membership test `ref_str in ref_map` on the insertion-ordered
association list modelling the Python dict. -/
def keyMem (m : List (List Char × Nat)) (k : List Char) : Bool :=
  m.any (fun p => decide (p.1 = k))

/-- Lookup `ref_map[ref_str]` on the association list. -/
def lookupIdx : List (List Char × Nat) → List Char → Option Nat
  | [], _ => none
  | (k, v) :: rest, m => if k = m then some v else lookupIdx rest m

/-- State of the index-assignment loop of
`process_text_references_with_citations`: the mention→index map, the
index→detail map (insertion-ordered, as Python dicts are) and the running
`current_index`. -/
structure CiteState where
  refMap : List (List Char × Nat)
  refDetails : List (Nat × List Char × List Char)
  nextIndex : Nat
deriving DecidableEq

/-- Embeds the `for ref_str in matches` loop: skip mentions already in
`ref_map`, otherwise resolve via `find_closest_filename` and, on success,
record the next index and its detail entry. -/
def citeGo (rm : RefMaker) : List (List Char) → CiteState → CiteState
  | [], st => st
  | m :: ms, st =>
      if keyMem st.refMap m then citeGo rm ms st
      else
        match find_closest_filename rm m with
        | some f =>
            citeGo rm ms
              ⟨st.refMap ++ [(m, st.nextIndex)],
               st.refDetails ++ [(st.nextIndex, m, f)],
               st.nextIndex + 1⟩
        | none => citeGo rm ms st

/-- The citation state after the whole assignment loop, starting from empty
maps and `current_index = 1`. -/
def buildCiteState (rm : RefMaker) (ms : List (List Char)) : CiteState :=
  citeGo rm ms ⟨[], [], 1⟩

/-- Replacement emitted by the `replacer` callback for a full match with
capture `cap`: a resolved mention is rewritten to
`**cap** <span class="doc-citation-number">[i]</span>`, an unresolved one
is re-emitted verbatim (`match_obj.group(0)`). -/
def replacementFor (map : List (List Char × Nat)) (cap : List Char) : List Char :=
  match lookupIdx map cap with
  | some i =>
      "**".toList ++ cap ++ "** <span class=\"doc-citation-number\">[".toList
        ++ (toString i).toList ++ "]</span>".toList
  | none => "**".toList ++ cap ++ "**".toList

/-- Embeds `doc_regex.sub(replacer, text)`: the same scan as `scanStep`,
emitting unmatched characters verbatim and each full match through
`replacementFor`. -/
def rewriteStep (map : List (List Char × Nat)) : ScanSt → List Char → List Char
  | .s0, [] => []
  | .s1, [] => "*".toList
  | .s2 acc, [] => "**".toList ++ acc
  | .s3 acc, [] => "**".toList ++ acc ++ "*".toList
  | .s0, c :: cs =>
      if c = '*' then rewriteStep map .s1 cs else c :: rewriteStep map .s0 cs
  | .s1, c :: cs =>
      if c = '*' then rewriteStep map (.s2 []) cs
      else '*' :: c :: rewriteStep map .s0 cs
  | .s2 acc, c :: cs =>
      if c = '*' then
        if acc.isEmpty then '*' :: rewriteStep map (.s2 []) cs
        else rewriteStep map (.s3 acc) cs
      else rewriteStep map (.s2 (acc ++ [c])) cs
  | .s3 acc, c :: cs =>
      if c = '*' then replacementFor map acc ++ rewriteStep map .s0 cs
      else "**".toList ++ acc ++ '*' :: c :: rewriteStep map .s0 cs

/-- The rewritten text `doc_regex.sub(replacer, text)`. -/
def rewriteText (map : List (List Char × Nat)) (text : List Char) : List Char :=
  rewriteStep map .s0 text

/-- Characters Python `urllib.parse.quote` leaves unescaped with the default
`safe='/'`: ASCII alphanumerics, `_`, `.`, `-`, `~` and `/`. -/
def urlSafeChar (c : Char) : Bool :=
  c.isAlphanum || c = '_' || c = '.' || c = '-' || c = '~' || c = '/'

/-- Uppercase hexadecimal digit for a value below 16. -/
def hexDigitChar (n : Nat) : Char :=
  if n < 10 then Char.ofNat (48 + n) else Char.ofNat (55 + n)

/-- Embeds `ReferenceMaker.encode_filename_for_url` = `urllib.parse.quote`
on ASCII text: unsafe characters become `%XX` with uppercase hex. -/
def encode_filename_for_url : List Char → List Char
  | [] => []
  | c :: cs =>
      (if urlSafeChar c then [c]
       else ['%', hexDigitChar (c.toNat / 16), hexDigitChar (c.toNat % 16)])
        ++ encode_filename_for_url cs

/-- One `<li>` entry of the references block:
`<li>[i] <a href="static/{empresa}/docs/{encoded}" target="_blank">{matched}</a></li>`. -/
def referenceEntry (rm : RefMaker) (d : Nat × List Char × List Char) : List Char :=
  "<li>[".toList ++ (toString d.1).toList ++ "] <a href=\"static/".toList
    ++ rm.empresa ++ "/docs/".toList ++ encode_filename_for_url d.2.2
    ++ "\" target=\"_blank\">".toList ++ d.2.2 ++ "</a></li>".toList

/-- Embeds the references-block loop: the header then one `<li>` per detail
entry in index order (details are iterated in insertion order, which is
ascending index order; the inner `if matched:` guard of the source is modelled
by the emptiness test). -/
def referencesBlock (rm : RefMaker) (details : List (Nat × List Char × List Char)) : List Char :=
  "\n\n<b>Referencias:</b>\n".toList
    ++ (details.map (fun d => if d.2.2.isEmpty then [] else referenceEntry rm d)).flatten

/-- Embeds `ReferenceMaker.process_text_references_with_citations`. -/
def process_text_references_with_citations (rm : RefMaker) (text : List Char) : List Char :=
  let ms := scanMentions text
  if ms.isEmpty then text
  else
    let st := buildCiteState rm ms
    let t2 := rewriteText st.refMap text
    if st.refDetails.isEmpty then t2 else t2 ++ referencesBlock rm st.refDetails

/-- Specification-level recursion for the assignment loop: the list of
`(mention, matched filename)` pairs for distinct resolved mentions in
first-seen order, given the set of mentions already resolved. -/
def resolvedNew (rm : RefMaker) : List (List Char) → List (List Char) → List (List Char × List Char)
  | _, [] => []
  | seen, m :: ms =>
      if m ∈ seen then resolvedNew rm seen ms
      else
        match find_closest_filename rm m with
        | some f => (m, f) :: resolvedNew rm (m :: seen) ms
        | none => resolvedNew rm seen ms

/-- Consecutive 1-based indexing of the resolved mentions (map form). -/
def idxPairs : Nat → List (List Char × List Char) → List (List Char × Nat)
  | _, [] => []
  | n, (m, _) :: rest => (m, n) :: idxPairs (n + 1) rest

/-- Consecutive 1-based indexing of the resolved mentions (detail form). -/
def idxDetails : Nat → List (List Char × List Char) → List (Nat × List Char × List Char)
  | _, [] => []
  | n, (m, f) :: rest => (n, m, f) :: idxDetails (n + 1) rest

/-! ### Locale number formatter (src/utilities/reference_maker.py, `convert_us_to_local`)

The regex is `\b\d{1,3}(,\d{3})*(\.\d+)?\b` over ASCII text (`\w` is modelled
as ASCII alphanumerics plus `_`). The matcher below reproduces Python `re`
semantics for this pattern: leftmost scan, greedy quantifiers with
backtracking, word-boundary anchors on both sides. -/

/-- Model of the regex word character class `\w` on ASCII text. -/
def wordChar (c : Char) : Bool := c.isAlphanum || c = '_'

/-- Greatest number of `,\d{3}` repetitions available at this position. -/
def maxGroups : List Char → Nat
  | ',' :: a :: b :: c :: rest =>
      if a.isDigit && b.isDigit && c.isDigit then 1 + maxGroups rest else 0
  | _ => 0

/-- Length consumed by `\.\d+` at this position with a greedy `\d+`, when it
matches at all. A shorter `\d+` can never rescue a failed trailing `\b`
(the following character would be a digit), so only the greedy length is a
candidate. -/
def fracLenOpt : List Char → Option Nat
  | '.' :: r =>
      let ds := r.takeWhile Char.isDigit
      if ds.isEmpty then none else some (1 + ds.length)
  | _ => none

/-- Trailing word-boundary test after a match ending in a digit: holds at end
of input or before a non-word character. -/
def boundaryAfter : List Char → Bool
  | [] => true
  | c :: _ => !wordChar c

/-- Backtracking over the optional fraction: try `\.\d+` first, then the
empty alternative, each followed by the trailing `\b`. Returns the length
consumed by the fraction part. -/
def tryFrac (rest : List Char) : Option Nat :=
  match fracLenOpt rest with
  | some f =>
      if boundaryAfter (rest.drop f) then some f
      else if boundaryAfter rest then some 0 else none
  | none => if boundaryAfter rest then some 0 else none

/-- Backtracking over the group count of `(,\d{3})*`, from `g` repetitions
down to zero. Returns the length consumed by groups and fraction. -/
def tryGroups : Nat → List Char → Option Nat
  | 0, rest => tryFrac rest
  | g + 1, rest =>
      match tryFrac (rest.drop (4 * (g + 1))) with
      | some f => some (4 * (g + 1) + f)
      | none => tryGroups g rest

/-- Backtracking over the `\d{1,3}` length, from `n` digits down to one.
Returns the total match length. -/
def tryIntLen : Nat → List Char → Option Nat
  | 0, _ => none
  | n + 1, l =>
      let rest := l.drop (n + 1)
      match tryGroups (maxGroups rest) rest with
      | some m => some (n + 1 + m)
      | none => tryIntLen n l

/-- Length of the regex match starting at this position (which already
carries a leading word boundary and starts with a digit), or `none`. -/
def tryNumMatch (l : List Char) : Option Nat :=
  tryIntLen (min (l.takeWhile Char.isDigit).length 3) l

/-- Embeds `babel.numbers.parse_decimal` under `en_US` on a string matching
the number grammar: strip the `,` group separators and split at the decimal
point, giving the integer value and the fraction digits. -/
def parseUSNumber (m : List Char) : Nat × List Char :=
  let noCommas := m.filter (fun c => !(c = ','))
  let ip := noCommas.takeWhile (fun c => !(c = '.'))
  let fp :=
    match noCommas.dropWhile (fun c => !(c = '.')) with
    | _ :: r => r
    | [] => []
  (digitsVal ip, fp)

/-- Trailing zeros of the fraction are not rendered (pattern `#,##0.###`). -/
def stripTrailZeros (l : List Char) : List Char :=
  (l.reverse.dropWhile (fun c => c = '0')).reverse

/-- Zero-padded three-digit rendering of a value below 1000. -/
def padThree (k : Nat) : List Char :=
  List.replicate (3 - (toString k).length) '0' ++ (toString k).toList

/-- Insert `.` after every third character of a reversed digit string. -/
def groupRevDots : List Char → List Char
  | a :: b :: c :: d :: rest => a :: b :: c :: '.' :: groupRevDots (d :: rest)
  | l => l

/-- Thousands grouping with `.` (the `es_ES` group symbol). -/
def groupDots (ds : List Char) : List Char :=
  (groupRevDots ds.reverse).reverse

/-- Embeds `babel.numbers.format_decimal` under `es_ES` with the default CLDR
pattern `#,##0.###`: the fraction is rounded half-even to three digits
(with carry into the integer part), trailing fraction zeros are dropped,
the integer part is grouped with `.` and the decimal separator is `,`. -/
def formatEsLocale (ip : Nat) (frac : List Char) : List Char :=
  let rounded :=
    if frac.length ≤ 3 then (ip, frac)
    else
      let k := digitsVal (frac.take 3)
      let rest := frac.drop 3
      let r := digitsVal rest
      let half := 5 * 10 ^ (rest.length - 1)
      let k2 :=
        if half < r then k + 1
        else if r < half then k
        else if k % 2 = 1 then k + 1 else k
      if k2 = 1000 then (ip + 1, "000".toList) else (ip, padThree k2)
  let fracS := stripTrailZeros rounded.2
  groupDots (toString rounded.1).toList ++ (if fracS.isEmpty then [] else ',' :: fracS)

/-- The `replacer` callback of `convert_us_to_local`: parse the matched token
under `en_US` and re-render it under `es_ES`. On a token produced by the
number grammar the babel parse always succeeds, so the `except` branch that
would return the token unchanged is unreachable. -/
def localizeNumber (m : List Char) : List Char :=
  formatEsLocale (parseUSNumber m).1 (parseUSNumber m).2

/-- Fuel-indexed embedding of `pattern.sub(replacer, text)`: scan left to
right; at a position whose predecessor is a non-word character (the leading
`\b`; matches always start with a digit) attempt a match, emit its
replacement and resume after it, with the flag recording that the last
emitted source character was a digit (a word character); otherwise emit the
character unchanged. The wrapper supplies fuel equal to the text length,
which suffices because every step consumes at least one character; an
exhausted-fuel step emits the remaining text unchanged. -/
def convertGo : Nat → Bool → List Char → List Char
  | _, _, [] => []
  | 0, _, l => l
  | fuel + 1, prevWord, c :: cs =>
      if !prevWord && c.isDigit then
        match tryNumMatch (c :: cs) with
        | some m => localizeNumber ((c :: cs).take m) ++ convertGo fuel true ((c :: cs).drop m)
        | none => c :: convertGo fuel (wordChar c) cs
      else c :: convertGo fuel (wordChar c) cs

/-- Embeds `ReferenceMaker.convert_us_to_local` (en_US → es_ES). -/
def convert_us_to_local (text : List Char) : List Char :=
  convertGo text.length false text

/-- Characters consumed by the scanner but not yet emitted in the given
state (used to state that rewriting with an empty reference map is the
identity). -/
def pendingOf : ScanSt → List Char
  | .s0 => []
  | .s1 => ['*']
  | .s2 acc => '*' :: '*' :: acc
  | .s3 acc => '*' :: '*' :: (acc ++ ['*'])

/-! ### Concrete scenario data -/

/-- Configuration used by the end-to-end citation scenarios: company `acme`,
corpus `{"Manual_P6.pdf"}`, match threshold 70 (as wired in
`RAGService.__init__`). -/
def rmAcme : RefMaker := ⟨"acme".toList, ["Manual_P6.pdf".toList], 70⟩

/-- Input text of end-to-end scenario 3. -/
def c1Text : List Char :=
  "Revisa **Manual P6** para más detalles. También **Manual P6** es útil.".toList

/-- Expected output of end-to-end scenario 3: both mentions carry the
identical marker `[1]` and one reference entry is appended. -/
def c1Expected : List Char :=
  ("Revisa **Manual P6** <span class=\"doc-citation-number\">[1]</span> para más detalles. "
    ++ "También **Manual P6** <span class=\"doc-citation-number\">[1]</span> es útil."
    ++ "\n\n<b>Referencias:</b>\n"
    ++ "<li>[1] <a href=\"static/acme/docs/Manual_P6.pdf\" target=\"_blank\">Manual_P6.pdf</a></li>").toList

/-- Input with a resolvable mention, an unresolvable one, and a second
resolvable one (exercising the skipped-index behaviour). -/
def c2Text : List Char :=
  "Vea **Manual P6**, luego **Zzz Qqq** y **Manual P6.pdf**.".toList

/-- Expected output for `c2Text`: the unresolved mention `**Zzz Qqq**` is
byte-for-byte unchanged, consumes no index (the next resolved mention gets
index 2) and is absent from the reference list. -/
def c2Expected : List Char :=
  ("Vea **Manual P6** <span class=\"doc-citation-number\">[1]</span>, "
    ++ "luego **Zzz Qqq** y **Manual P6.pdf** <span class=\"doc-citation-number\">[2]</span>."
    ++ "\n\n<b>Referencias:</b>\n"
    ++ "<li>[1] <a href=\"static/acme/docs/Manual_P6.pdf\" target=\"_blank\">Manual_P6.pdf</a></li>"
    ++ "<li>[2] <a href=\"static/acme/docs/Manual_P6.pdf\" target=\"_blank\">Manual_P6.pdf</a></li>").toList

/-- Source-branch results of end-to-end scenario 2 (scores 200 and 100). -/
def scenarioSourceResults : List SearchResult :=
  [⟨200, "texto uno".toList, some ("a.pdf".toList)⟩,
   ⟨100, "texto dos".toList, none⟩]

/-- Translated-branch results of end-to-end scenario 2 (score 180). -/
def scenarioTranslatedResults : List SearchResult :=
  [⟨180, "text three".toList, some ("b.pdf".toList)⟩]

/-! ## Theorems

Helper lemmas first, then one theorem per claim (witnesses and
counterexamples directly after the theorem of their claim). -/

theorem keptEntries_append (lang : List Char) (l1 l2 : List SearchResult) :
    keptEntries lang (l1 ++ l2) = keptEntries lang l1 ++ keptEntries lang l2 := by
  induction l1 with
  | nil => simp [ keptEntries]
  | cons r rs ih => by_cases h : 150 ≤ r.score <;> simp [ keptEntries, h, ih]

theorem keptScore_append (l1 l2 : List SearchResult) :
    keptScore (l1 ++ l2) = keptScore l1 + keptScore l2 := by
  induction l1 with
  | nil => simp [ keptScore]
  | cons r rs ih =>
      by_cases h : 150 ≤ r.score <;> simp [ keptScore, h, ih, add_assoc]

theorem keptEntries_skip (lang : List Char) (r : SearchResult) (rs : List SearchResult)
    (h : r.score < 150) : keptEntries lang (r :: rs) = keptEntries lang rs := by
  simp [ keptEntries, not_le.mpr h]

theorem keptScore_skip (r : SearchResult) (rs : List SearchResult)
    (h : r.score < 150) : keptScore (r :: rs) = keptScore rs := by
  simp [ keptScore, not_le.mpr h]

theorem keptEntries_mem (lang : List Char) (r : SearchResult) (rs : List SearchResult)
    (h : r ∈ rs) (hs : 150 ≤ r.score) : (lang, r.score, r) ∈ keptEntries lang rs := by
  induction rs with
  | nil => cases h
  | cons a t ih =>
      rcases List.mem_cons.1 h with rfl | h'
      · simp [ keptEntries, hs]
      · by_cases ha : 150 ≤ a.score <;> simp [ keptEntries, ha, ih h']

theorem mem_insertDesc {x y : MergeEntry} {l : List MergeEntry} :
    y ∈ insertDesc x l ↔ y = x ∨ y ∈ l := by
  induction l with
  | nil => simp [ insertDesc]
  | cons z zs ih =>
      by_cases h : x.2.1 < z.2.1
      · simp [ insertDesc, h, ih]
        tauto
      · simp [ insertDesc, h, ih]

theorem mem_sortDesc {y : MergeEntry} {l : List MergeEntry} :
    y ∈ sortDesc l ↔ y ∈ l := by
  induction l with
  | nil => simp [ sortDesc]
  | cons x xs ih => simp [ sortDesc, mem_insertDesc, ih]

theorem pairwise_insertDesc (x : MergeEntry) (l : List MergeEntry)
    (h : l.Pairwise (fun a b => b.2.1 ≤ a.2.1)) :
    (insertDesc x l).Pairwise (fun a b => b.2.1 ≤ a.2.1) := by
  induction l with
  | nil => simp [ insertDesc]
  | cons y ys ih =>
      rcases List.pairwise_cons.1 h with ⟨h1, h2⟩
      by_cases hc : x.2.1 < y.2.1
      · rw [ insertDesc, if_pos hc]
        refine List.pairwise_cons.2 ⟨?_, ih h2⟩
        intro z hz
        rcases mem_insertDesc.1 hz with rfl | hz'
        · exact le_of_lt hc
        · exact h1 z hz'
      · rw [ insertDesc, if_neg hc]
        refine List.pairwise_cons.2 ⟨?_, h⟩
        intro z hz
        rcases List.mem_cons.1 hz with rfl | hz'
        · exact le_of_not_lt hc
        · exact le_trans (h1 z hz') (le_of_not_lt hc)

theorem sortDesc_pairwise (l : List MergeEntry) :
    (sortDesc l).Pairwise (fun a b => b.2.1 ≤ a.2.1) := by
  induction l with
  | nil => simp [ sortDesc]
  | cons x xs ih => exact pairwise_insertDesc x (sortDesc xs) ih

theorem scoreFilter_insertDesc (s : ℚ) (x : MergeEntry) (l : List MergeEntry) :
    scoreFilter s (insertDesc x l) = scoreFilter s (x :: l) := by
  induction l with
  | nil => rfl
  | cons y ys ih =>
      rw [ insertDesc]
      by_cases hc : x.2.1 < y.2.1
      · rw [ if_pos hc]
        by_cases hx : x.2.1 = s
        · have hy : ¬ y.2.1 = s := fun hy =>
            absurd hc (by rw [ hx, hy]; exact lt_irrefl s)
          simp only [ scoreFilter, List.filter_cons] at ih ⊢
          simp [ hx, hy] at ih ⊢
          exact ih
        · simp only [ scoreFilter, List.filter_cons] at ih ⊢
          by_cases hy : y.2.1 = s <;> simp [ hx, hy] at ih ⊢ <;> exact ih
      · rw [ if_neg hc]

theorem scoreFilter_sortDesc (s : ℚ) (l : List MergeEntry) :
    scoreFilter s (sortDesc l) = scoreFilter s l := by
  induction l with
  | nil => rfl
  | cons x xs ih =>
      have h1 : sortDesc (x :: xs) = insertDesc x (sortDesc xs) := rfl
      rw [ h1, scoreFilter_insertDesc]
      simp only [ scoreFilter, List.filter_cons] at ih ⊢
      rw [ ih]

theorem keptScore_eq_sum (rs : List SearchResult) :
    keptScore rs =
      ((rs.filter (fun r => decide (150 ≤ r.score))).map SearchResult.score).sum := by
  induction rs with
  | nil => rfl
  | cons r t ih =>
      by_cases h : 150 ≤ r.score <;> simp [ keptScore, List.filter_cons, h, ih]

/-- C3: a result scoring strictly below the 150 threshold never contributes a
rendered block to the merged context nor to the score sum of either branch
(deleting it anywhere in either branch leaves the merge output unchanged),
while every result scoring at least 150 is kept in the combined list with
its score and language tag. -/
theorem C3_subthreshold_filtering (r : SearchResult) :
    (∀ es1 es2 en, r.score < 150 →
        mergeRag (es1 ++ r :: es2) en = mergeRag (es1 ++ es2) en)
  ∧ (∀ es en1 en2, r.score < 150 →
        mergeRag es (en1 ++ r :: en2) = mergeRag es (en1 ++ en2))
  ∧ (∀ es en, r ∈ es → 150 ≤ r.score → (esTag, r.score, r) ∈ mergeCombined es en)
  ∧ (∀ es en, r ∈ en → 150 ≤ r.score → (enTag, r.score, r) ∈ mergeCombined es en) := by
  refine ⟨?_, ?_, ?_, ?_⟩
  · intro es1 es2 en h
    have h1 : keptEntries esTag (es1 ++ r :: es2) = keptEntries esTag (es1 ++ es2) := by
      rw [ keptEntries_append, keptEntries_skip _ _ _ h, keptEntries_append]
    have h2 : keptScore (es1 ++ r :: es2) = keptScore (es1 ++ es2) := by
      rw [ keptScore_append, keptScore_skip _ _ h, keptScore_append]
    simp [ mergeRag, mergeChunks, mergeCombined, h1, h2]
  · intro es en1 en2 h
    have h1 : keptEntries enTag (en1 ++ r :: en2) = keptEntries enTag (en1 ++ en2) := by
      rw [ keptEntries_append, keptEntries_skip _ _ _ h, keptEntries_append]
    have h2 : keptScore (en1 ++ r :: en2) = keptScore (en1 ++ en2) := by
      rw [ keptScore_append, keptScore_skip _ _ h, keptScore_append]
    simp [ mergeRag, mergeChunks, mergeCombined, h1, h2]
  · intro es en h hs
    exact mem_sortDesc.mpr (List.mem_append.mpr (Or.inl (keptEntries_mem esTag r es h hs)))
  · intro es en h hs
    exact mem_sortDesc.mpr (List.mem_append.mpr (Or.inr (keptEntries_mem enTag r en h hs)))

/-- Witness for C3 at concrete inputs: inserting a score-100 result changes
nothing, and a score-200 result is kept. -/
theorem C3_subthreshold_filtering_witness :
    mergeRag ([] ++ (⟨100, "texto dos".toList, none⟩ : SearchResult) :: []) [] = mergeRag ([] ++ []) []
  ∧ (esTag, (200 : ℚ), (⟨200, "texto uno".toList, some ("a.pdf".toList)⟩ : SearchResult))
      ∈ mergeCombined [⟨200, "texto uno".toList, some ("a.pdf".toList)⟩] [] :=
  ⟨(C3_subthreshold_filtering ⟨100, "texto dos".toList, none⟩).1 [] [] [] (by decide),
   (C3_subthreshold_filtering ⟨200, "texto uno".toList, some ("a.pdf".toList)⟩).2.2.1
     [⟨200, "texto uno".toList, some ("a.pdf".toList)⟩] [] (by simp) (by decide)⟩

/-- C4: the merged combined list is ordered by score descending, and the
ordering is deterministic under ties: restricting the merged list to any
fixed score value yields exactly the kept source-branch (Spanish) entries,
in their original order, followed by the kept translated-branch (English)
entries, in their original order — so equal-score entries keep their
per-branch relative order and a source-language entry always precedes a
translated-language entry of the same score. -/
theorem C4_merge_ordering_stable :
    (∀ es en, (mergeCombined es en).Pairwise (fun a b => b.2.1 ≤ a.2.1))
  ∧ (∀ es en s, scoreFilter s (mergeCombined es en) =
      scoreFilter s (keptEntries esTag es) ++ scoreFilter s (keptEntries enTag en)) := by
  constructor
  · intro es en
    exact sortDesc_pairwise _
  · intro es en s
    rw [ mergeCombined, scoreFilter_sortDesc]
    simp [ scoreFilter, List.filter_append]

theorem snippetFor_cons (e : MergeEntry) : ∃ t, snippetFor e = '-' :: t :=
  ⟨_, rfl⟩

theorem joinNewline_dash (t : List Char) (cs : List (List Char)) :
    ∃ u, joinNewline (('-' :: t) :: cs) = '-' :: u := by
  cases cs with
  | nil => exact ⟨t, rfl⟩
  | cons d ds => exact ⟨t ++ '\n' :: joinNewline (d :: ds), rfl⟩

theorem trimChars_cons_ne_nil (c : Char) (l : List Char)
    (h : c.isWhitespace = false) : trimChars (c :: l) ≠ [] := by
  rw [ trimChars, List.dropWhile_cons_of_neg (by simp [ h])]
  intro hnil
  rw [ List.reverse_eq_nil_iff] at hnil
  have hall := List.dropWhile_eq_nil_iff.mp hnil c (by simp)
  rw [ h] at hall
  cases hall

/-- C5: the merged context string is never empty: it is exactly the fallback
sentinel when no result passes the threshold, and otherwise the
(stripped) newline-join of the rendered blocks, which is nonempty. -/
theorem C5_context_never_empty (es en : List SearchResult) :
    (mergeChunks es en = [] → (mergeRag es en).1 = fallbackContext)
  ∧ (mergeChunks es en ≠ [] →
      (mergeRag es en).1 = trimChars (joinNewline (mergeChunks es en)))
  ∧ (mergeRag es en).1 ≠ [] := by
  refine ⟨?_, ?_, ?_⟩
  · intro h
    simp [ mergeRag, h]
  · intro h
    simp [ mergeRag, h]
  · cases hcomb : mergeCombined es en with
    | nil =>
        have hch : mergeChunks es en = [] := by simp [ mergeChunks, hcomb]
        simp [ mergeRag, hch]
        decide
    | cons e rest =>
        have hch : mergeChunks es en = snippetFor e :: rest.map snippetFor := by
          simp [ mergeChunks, hcomb]
        obtain ⟨t, ht⟩ := snippetFor_cons e
        rw [ ht] at hch
        obtain ⟨u, hu⟩ := joinNewline_dash t (rest.map snippetFor)
        have hctx : (mergeRag es en).1 = trimChars (joinNewline (mergeChunks es en)) := by
          simp [ mergeRag, hch]
        rw [ hctx, hch, hu]
        exact trimChars_cons_ne_nil '-' u (by decide)

/-- Witness for C5 at concrete inputs: with no results the context is the
fallback sentinel; with a passing result it is the stripped join; in both
cases it is nonempty. -/
theorem C5_context_never_empty_witness :
    (mergeRag [] []).1 = fallbackContext
  ∧ (mergeRag scenarioSourceResults []).1 =
      trimChars (joinNewline (mergeChunks scenarioSourceResults []))
  ∧ (mergeRag [] []).1 ≠ []
  ∧ (mergeRag scenarioSourceResults []).1 ≠ [] :=
  ⟨(C5_context_never_empty [] []).1 rfl,
   (C5_context_never_empty scenarioSourceResults []).2.1 (by decide),
   (C5_context_never_empty [] []).2.2,
   (C5_context_never_empty scenarioSourceResults []).2.2⟩

/-- C6: the total score recorded by the merge is the sum of the
threshold-passing scores of the source branch plus those of the translated
branch; on end-to-end scenario 2 (source scores [200, 100], translated
[180]) the context has exactly two rendered blocks ordered [200, 180] and
the total is 380. -/
theorem C6_total_score :
    (∀ es en, (mergeRag es en).2 =
        ((es.filter (fun r => decide (150 ≤ r.score))).map SearchResult.score).sum
      + ((en.filter (fun r => decide (150 ≤ r.score))).map SearchResult.score).sum)
  ∧ (mergeCombined scenarioSourceResults scenarioTranslatedResults).map (fun e => e.2.1)
      = [200, 180]
  ∧ (mergeChunks scenarioSourceResults scenarioTranslatedResults).length = 2
  ∧ (mergeRag scenarioSourceResults scenarioTranslatedResults).2 = 380 := by
  refine ⟨?_, ?_, ?_, ?_⟩
  · intro es en
    simp [ mergeRag, keptScore_eq_sum]
  · decide
  · decide
  · decide

theorem char_toNat_ofNat (n : Nat) (h : n.isValidChar) : (Char.ofNat n).toNat = n := by
  rw [ Char.ofNat, dif_pos h]
  rfl

theorem pyLower_not_upper (c : Char) : upperAscii (pyLower c) = false := by
  rw [ pyLower]
  by_cases h : 65 ≤ c.toNat ∧ c.toNat ≤ 90
  · rw [ if_pos h]
    have hv : (c.toNat + 32).isValidChar := Or.inl (by omega)
    show decide _ = false
    rw [ char_toNat_ofNat _ hv]
    exact decide_eq_false (by omega)
  · rw [ if_neg h]
    exact decide_eq_false h

theorem containsSub_true_iff (hay kw : List Char) :
    containsSub hay kw = true ↔ kw <:+: hay := by
  induction hay with
  | nil => simp [ containsSub, List.isEmpty_iff]
  | cons h t ih =>
      simp [ containsSub, List.infix_cons_iff, ih]

/-- C8: when the classification reply cannot be parsed as a number the
probability defaults to 50, and since the decision rule is
`probability >= 50` the classifier returns `true`; the `ValueError` is
caught inside `should_call_groundx` (the embedding is a total function), so
an unparseable reply never raises. -/
theorem C8_parse_failure_defaults_true (keywords : List (List Char)) (query reply : List Char)
    (h : parseFloatQ (trimChars reply) = none) :
    classifierProbability reply = 50 ∧ shouldCallGroundx keywords query reply = true := by
  have hp : classifierProbability reply = 50 := by
    rw [ classifierProbability, h]
  refine ⟨hp, ?_⟩
  rw [ shouldCallGroundx]
  by_cases hk : keywordHit keywords query
  · rw [ if_pos hk]
  · rw [ if_neg hk, hp]
    decide

/-- Witness for C8: a concrete non-numeric reply defaults to 50 and yields
`true` with an empty keyword list. -/
theorem C8_parse_failure_defaults_true_witness :
    classifierProbability ("No es un número.".toList) = 50
  ∧ shouldCallGroundx [] ("hola".toList) ("No es un número.".toList) = true :=
  C8_parse_failure_defaults_true [] ("hola".toList) ("No es un número.".toList) (by decide)

/-- C10: the keyword fast path lower-cases the query but compares each
configured keyword verbatim: a keyword containing an uppercase character
never passes its substring test against the lower-cased query, while a
keyword whose characters are all lowercase triggers the fast path whenever
it is a substring of the lower-cased query. -/
theorem C10_keyword_case_sensitivity :
    (∀ query kw, (∃ c ∈ kw, upperAscii c = true) →
        containsSub (lowerQuery query) kw = false)
  ∧ (∀ keywords query kw, kw ∈ keywords → (∀ c ∈ kw, lowerAscii c = true) →
        containsSub (lowerQuery query) kw = true → keywordHit keywords query = true) := by
  constructor
  · intro query kw hup
    cases hc : containsSub (lowerQuery query) kw with
    | false => rfl
    | true =>
        exfalso
        obtain ⟨c, hck, hcu⟩ := hup
        have hinf : kw <:+: lowerQuery query := (containsSub_true_iff _ _).mp hc
        obtain ⟨d, -, hd⟩ := List.mem_map.mp (hinf.subset hck)
        rw [ ← hd, pyLower_not_upper d] at hcu
        cases hcu
  · intro keywords query kw hk _ hsub
    rw [ keywordHit, List.any_eq_true]
    exact ⟨kw, hk, hsub⟩

/-- Witness for C10: the keyword `"Horario"` (uppercase `H`) fails its
substring test against a query that does contain `horario`, while the
all-lowercase keyword `"horario"` triggers the fast path on an
uppercase query. -/
theorem C10_keyword_case_sensitivity_witness :
    containsSub (lowerQuery ("pregunta sobre horario".toList)) "Horario".toList = false
  ∧ keywordHit ["horario".toList] "¿Cuál es el HORARIO de atención?".toList = true :=
  ⟨C10_keyword_case_sensitivity.1 ("pregunta sobre horario".toList) ("Horario".toList)
      ⟨'H', by decide, by decide⟩,
   C10_keyword_case_sensitivity.2 ["horario".toList] ("¿Cuál es el HORARIO de atención?".toList)
      ("horario".toList) (by simp) (by decide) (by decide)⟩

theorem convertGo_no_digits (fuel : Nat) (b : Bool) (l : List Char)
    (h : ∀ c ∈ l, c.isDigit = false) : convertGo fuel b l = l := by
  induction fuel generalizing b l with
  | zero => cases l <;> rfl
  | succ f ih =>
      cases l with
      | nil => rfl
      | cons c cs =>
          have hc : c.isDigit = false := h c (List.mem_cons_self c cs)
          have hrest : ∀ x ∈ cs, x.isDigit = false :=
            fun x hx => h x (List.mem_cons_of_mem c hx)
          rw [ convertGo, hc]
          simp [ ih (wordChar c) cs hrest]

/-- C7 counterexample: the claim that the version string `"v2.0.1"` is left
unchanged is false on the code: the dot before the final `0.1` is a
non-word character, so `\b` holds there, `0.1` matches the standalone
number grammar, and the formatter rewrites the text to `"v2.0,1"`. -/
theorem C7_counterexample :
    convert_us_to_local ("v2.0.1".toList) = "v2.0,1".toList
  ∧ convert_us_to_local ("v2.0.1".toList) ≠ "v2.0.1".toList := by
  constructor
  · decide
  · decide

/-- C7 amended: the formatter does not touch text without digits, and does
not mutate digits embedded directly in a larger alphanumeric token such as
`"Room123"` (the word-boundary anchor fails between two word characters);
but a version string such as `"v2.0.1"` is mutated to `"v2.0,1"`, because
`.` is a non-word character and `0.1` matches the standalone-number
grammar. A genuine standalone number is reformatted (`"1,234.50"` becomes
`"1.234,5"`). -/
theorem C7_word_boundary :
    (∀ text, (∀ c ∈ text, c.isDigit = false) → convert_us_to_local text = text)
  ∧ convert_us_to_local ("Room123".toList) = "Room123".toList
  ∧ convert_us_to_local ("La sala Room123 usa v2.0.1 hoy.".toList)
      = "La sala Room123 usa v2.0,1 hoy.".toList
  ∧ convert_us_to_local ("1,234.50".toList) = "1.234,5".toList := by
  refine ⟨?_, by decide, by decide, by decide⟩
  intro text h
  exact convertGo_no_digits _ _ _ h

/-- Witness for C7 at a concrete digit-free text. -/
theorem C7_word_boundary_witness :
    convert_us_to_local ("sin cifras aquí".toList) = "sin cifras aquí".toList :=
  C7_word_boundary.1 ("sin cifras aquí".toList) (by decide)

/-- C9 counterexample: for a kept entry without a `file_name`, the rendered
fallback attribution label of the block is the Spanish `"Documento EN"`, not the
`"Document EN"` stated by the claim. -/
theorem C9_counterexample :
    containsSub (snippetFor (enTag, 200, ⟨200, "hola".toList, none⟩))
      "Document EN".toList = false
  ∧ containsSub (snippetFor (enTag, 200, ⟨200, "hola".toList, none⟩))
      "Documento EN".toList = true := by
  constructor
  · decide
  · decide

/-- C9 amended: every kept entry of the merge contributes its rendered block
to the chunks list; the block starts with the separator line, contains an
attribution line naming the source document file name of the entry — falling
back to the label `"Documento <lang>"` (not `"Document <lang>"`) when the
file name is absent — and contains the suggested text of the entry. -/
theorem C9_block_structure (es en : List SearchResult) (e : MergeEntry)
    (h : e ∈ mergeCombined es en) :
    snippetFor e ∈ mergeChunks es en
  ∧ "----------\n".toList <+: snippetFor e
  ∧ (∀ f, e.2.2.file_name = some f →
      ("The following text excerpt is from a document named ".toList ++ f
        ++ ":\n\n".toList) <:+: snippetFor e)
  ∧ (e.2.2.file_name = none →
      ("The following text excerpt is from a document named ".toList
        ++ ("Documento ".toList ++ e.1) ++ ":\n\n".toList) <:+: snippetFor e)
  ∧ e.2.2.suggested_text <:+: snippetFor e := by
  refine ⟨List.mem_map_of_mem _ h, ⟨_, rfl⟩, ?_, ?_, ?_⟩
  · intro f hf
    refine ⟨"----------\n".toList, e.2.2.suggested_text ++ "\n".toList, ?_⟩
    simp [ snippetFor, hf]
  · intro hf
    refine ⟨"----------\n".toList, e.2.2.suggested_text ++ "\n".toList, ?_⟩
    simp [ snippetFor, hf]
  · refine ⟨"----------\n".toList
        ++ "The following text excerpt is from a document named ".toList
        ++ e.2.2.file_name.getD ("Documento ".toList ++ e.1) ++ ":\n\n".toList,
      "\n".toList, ?_⟩
    simp [ snippetFor]

/-- Witness for C9 at concrete kept entries: one with a file name (from
end-to-end scenario 2) and one without (exercising the fallback label). -/
theorem C9_block_structure_witness :
    snippetFor (esTag, (200 : ℚ), ⟨200, "texto uno".toList, some ("a.pdf".toList)⟩)
      ∈ mergeChunks scenarioSourceResults scenarioTranslatedResults
  ∧ ("The following text excerpt is from a document named ".toList ++ "a.pdf".toList
      ++ ":\n\n".toList)
      <:+: snippetFor (esTag, (200 : ℚ), ⟨200, "texto uno".toList, some ("a.pdf".toList)⟩)
  ∧ ("The following text excerpt is from a document named ".toList
      ++ ("Documento ".toList ++ enTag) ++ ":\n\n".toList)
      <:+: snippetFor (enTag, (180 : ℚ), ⟨180, "text three".toList, none⟩) :=
  ⟨(C9_block_structure scenarioSourceResults scenarioTranslatedResults
      (esTag, (200 : ℚ), ⟨200, "texto uno".toList, some ("a.pdf".toList)⟩) (by decide)).1,
   (C9_block_structure scenarioSourceResults scenarioTranslatedResults
      (esTag, (200 : ℚ), ⟨200, "texto uno".toList, some ("a.pdf".toList)⟩) (by decide)).2.2.1
      "a.pdf".toList rfl,
   (C9_block_structure [] [⟨180, "text three".toList, none⟩]
      (enTag, (180 : ℚ), ⟨180, "text three".toList, none⟩) (by decide)).2.2.2.1 rfl⟩

theorem keyMem_append (M : List (List Char × Nat)) (p : List Char × Nat) (k : List Char) :
    keyMem (M ++ [p]) k = (keyMem M k || decide (p.1 = k)) := by
  simp [ keyMem, List.any_append]

theorem citeGo_spec (rm : RefMaker) (ms : List (List Char)) :
    ∀ (st : CiteState) (seen : List (List Char)),
      (∀ k, keyMem st.refMap k = true ↔ k ∈ seen) →
      citeGo rm ms st =
        ⟨st.refMap ++ idxPairs st.nextIndex (resolvedNew rm seen ms),
         st.refDetails ++ idxDetails st.nextIndex (resolvedNew rm seen ms),
         st.nextIndex + (resolvedNew rm seen ms).length⟩ := by
  induction ms with
  | nil =>
      intro st seen hinv
      simp [ citeGo, resolvedNew, idxPairs, idxDetails]
  | cons m ms ih =>
      intro st seen hinv
      by_cases hk : keyMem st.refMap m = true
      · have hmem : m ∈ seen := (hinv m).mp hk
        simp only [ citeGo]
        rw [ if_pos hk]
        simp only [ resolvedNew]
        rw [ if_pos hmem]
        exact ih st seen hinv
      · have hnm : m ∉ seen := fun hmem => hk ((hinv m).mpr hmem)
        simp only [ citeGo]
        rw [ if_neg hk]
        cases hf : find_closest_filename rm m with
        | some f =>
            have hinv' : ∀ k,
                keyMem (st.refMap ++ [(m, st.nextIndex)]) k = true ↔ k ∈ m :: seen := by
              intro k
              rw [ keyMem_append]
              simp [ hinv k, List.mem_cons]
              tauto
            dsimp only
            rw [ ih ⟨st.refMap ++ [(m, st.nextIndex)],
                  st.refDetails ++ [(st.nextIndex, m, f)], st.nextIndex + 1⟩
                  (m :: seen) hinv']
            simp only [ resolvedNew]
            rw [ if_neg hnm, hf]
            simp [ idxPairs, idxDetails, CiteState.mk.injEq, List.append_assoc]
            omega
        | none =>
            dsimp only
            rw [ ih st seen hinv]
            simp only [ resolvedNew]
            rw [ if_neg hnm, hf]

/-- C1: the citation resolver assigns exactly one 1-based index per distinct
resolved mention in first-seen order (the reference map and the detail map
are exactly the first-seen distinct resolved mentions paired with the
consecutive indices 1, 2, …), and on end-to-end scenario 3 both
occurrences of `**Manual P6**` receive the identical marker `[1]` and
exactly one reference entry for `Manual_P6.pdf` is appended. The
nonempty-corpus hypothesis records that the Python code would raise on an
empty corpus (unpacking the `None` answer of `extractOne`) rather than resolve. -/
theorem C1_citation_indexing :
    (∀ rm ms, rm.docs_list ≠ [] →
        (buildCiteState rm ms).refMap = idxPairs 1 (resolvedNew rm [] ms)
      ∧ (buildCiteState rm ms).refDetails = idxDetails 1 (resolvedNew rm [] ms))
  ∧ process_text_references_with_citations rmAcme c1Text = c1Expected := by
  constructor
  · intro rm ms hne
    rw [ buildCiteState, citeGo_spec rm ms ⟨[], [], 1⟩ [] (by intro k; simp [ keyMem])]
    constructor <;> simp
  · decide

/-- Witness for C1: the reference-map characterisation applied to the
scenario corpus and the mentions of the scenario text. -/
theorem C1_citation_indexing_witness :
    (buildCiteState rmAcme (scanMentions c1Text)).refMap
      = idxPairs 1 (resolvedNew rmAcme [] (scanMentions c1Text)) :=
  (C1_citation_indexing.1 rmAcme (scanMentions c1Text) (by decide)).1

theorem rewriteStep_nil_map (l : List Char) :
    ∀ st, rewriteStep [] st l = pendingOf st ++ l := by
  induction l with
  | nil =>
      intro st
      cases st <;> simp [ rewriteStep, pendingOf]
  | cons c cs ih =>
      intro st
      by_cases hc : c = '*'
      · subst hc
        cases st with
        | s0 => rw [ rewriteStep, if_pos rfl, ih]; simp [ pendingOf]
        | s1 => rw [ rewriteStep, if_pos rfl, ih]; simp [ pendingOf]
        | s2 acc =>
            by_cases ha : acc.isEmpty
            · rw [ rewriteStep, if_pos rfl, if_pos ha, ih]
              rw [ List.isEmpty_iff.mp ha]
              simp [ pendingOf]
            · rw [ rewriteStep, if_pos rfl, if_neg ha, ih]
              simp [ pendingOf]
        | s3 acc =>
            rw [ rewriteStep, if_pos rfl, ih]
            simp [ pendingOf, replacementFor, lookupIdx]
      · cases st with
        | s0 => rw [ rewriteStep, if_neg hc, ih]; simp [ pendingOf]
        | s1 => rw [ rewriteStep, if_neg hc, ih]; simp [ pendingOf]
        | s2 acc =>
            rw [ rewriteStep, if_neg hc, ih]
            simp [ pendingOf]
        | s3 acc =>
            rw [ rewriteStep, if_neg hc, ih]
            simp [ pendingOf]

theorem citeGo_not_mentioned (rm : RefMaker) (m : List Char)
    (hm : find_closest_filename rm m = none) (ms : List (List Char)) :
    ∀ st : CiteState,
      (∀ i, (m, i) ∉ st.refMap) → (∀ i f, (i, m, f) ∉ st.refDetails) →
      (∀ i, (m, i) ∉ (citeGo rm ms st).refMap)
    ∧ (∀ i f, (i, m, f) ∉ (citeGo rm ms st).refDetails) := by
  induction ms with
  | nil =>
      intro st h1 h2
      exact ⟨h1, h2⟩
  | cons m' ms ih =>
      intro st h1 h2
      by_cases hk : keyMem st.refMap m' = true
      · simp only [ citeGo]
        rw [ if_pos hk]
        exact ih st h1 h2
      · simp only [ citeGo]
        rw [ if_neg hk]
        cases hf : find_closest_filename rm m' with
        | some f =>
            have hmm : m' ≠ m := by
              intro he
              rw [ he, hm] at hf
              cases hf
            apply ih
            · intro i hmem
              rcases List.mem_append.mp hmem with h | h
              · exact h1 i h
              · simp at h
                exact hmm h.1.symm
            · intro i f' hmem
              rcases List.mem_append.mp hmem with h | h
              · exact h2 i f' h
              · simp at h
                exact hmm h.2.1.symm
        | none => exact ih st h1 h2

/-- C2: a mention whose best fuzzy-match score is below the threshold gets no
entry in the reference map or the reference list and consumes no index
(the indices of a run remain the consecutive 1, 2, … over resolved
mentions only, per the C1 characterisation shared here through
`resolvedNew`); with an empty reference map the rewriting pass is the
identity, so unresolved mentions are emitted character-for-character
unchanged with their `**` delimiters; and on a concrete text mixing
resolved and unresolved mentions, `**Zzz Qqq**` is left verbatim, absent
from the reference list, and the following resolved mention receives index
2 (no index was consumed). No exception is raised: the embedding is total
on this path. -/
theorem C2_below_threshold_unresolved :
    (∀ rm ms m, find_closest_filename rm m = none →
        (∀ i, (m, i) ∉ (buildCiteState rm ms).refMap)
      ∧ (∀ i f, (i, m, f) ∉ (buildCiteState rm ms).refDetails))
  ∧ (∀ text, rewriteText [] text = text)
  ∧ process_text_references_with_citations rmAcme c2Text = c2Expected := by
  refine ⟨?_, ?_, ?_⟩
  · intro rm ms m hm
    exact citeGo_not_mentioned rm m hm ms ⟨[], [], 1⟩ (by simp) (by simp)
  · intro text
    rw [ rewriteText, rewriteStep_nil_map text ScanSt.s0]
    rfl
  · decide

/-- Witness for C2: the unresolved mention `"Zzz Qqq"` of the concrete
scenario is not mapped to index 1 (nor recorded in the details), and the
empty-map rewrite leaves the scenario text unchanged. -/
theorem C2_below_threshold_unresolved_witness :
    ("Zzz Qqq".toList, 1) ∉ (buildCiteState rmAcme (scanMentions c2Text)).refMap
  ∧ rewriteText [] c2Text = c2Text :=
  ⟨(C2_below_threshold_unresolved.1 rmAcme (scanMentions c2Text) "Zzz Qqq".toList
      (by decide)).1 1,
   C2_below_threshold_unresolved.2.1 c2Text⟩

end TiendaInglesa
